import Mathlib

/-
Verification of the cryptographic core of the E2E-Signal-Clone repository:
a shallow embedding of `core_backend/crypto_utils.py`,
`core_backend/double_ratchet_algorithm.py` and the session-management part
of `core_backend/message_handler.py`, together with proofs of the spec's
claims about them.

External primitives (the `cryptography` library's X25519, HKDF-SHA256 and
AES-GCM) are idealized by concrete executable functions that preserve the
interface properties the code relies on: determinism, output lengths, the
nonce/ciphertext/tag envelope layout, tag verification, and commutativity
of Diffie-Hellman.  Randomness (key generation, nonce sampling) is passed
in as explicit parameters.  Python exceptions are modelled by `Except`;
because Python mutations made before a `raise` persist, every stateful
operation returns its post-state even on error.
-/

namespace E2E

/-- Byte strings (each entry a byte value) modelling Python `bytes`. -/
abbrev Bytes := List Nat

/-- Injective-in-practice encoding of a byte string into a natural number;
the basis of the idealized hash-like primitives below. -/
def encodeBytes (l : Bytes) : Nat :=
  l.foldl (fun a b => a * 257 + b % 256 + 1) 1

/-- Idealized model of HKDF-SHA256 from the external `cryptography` library
(empty salt, as in `CryptoUtils.perform_key_derivation_using_hkdf`):
a deterministic expansion of (ikm, info) to `length` output bytes. -/
def CryptoUtils.perform_key_derivation_using_hkdf
    (input_key : Bytes) (info : Bytes) (length : Nat) : Bytes :=
  (List.range length).map
    (fun i => (encodeBytes input_key * 1000003 + encodeBytes info * 65537 + i * 31 + 7) % 256)

/-- Modulus of the idealized Diffie-Hellman group standing in for Curve25519
(the Mersenne prime 2^31 - 1). -/
def dhModulus : Nat := 2147483647

/-- Generator of the idealized Diffie-Hellman group. -/
def dhBase : Nat := 7

/-- Idealized X25519: a private key is a natural-number scalar and its public
key is `dhBase ^ priv mod dhModulus` (the output of
`private_key.public_key().public_bytes_raw()` in the source). -/
def pubKeyOf (priv : Nat) : Nat := dhBase ^ priv % dhModulus

/-- Little-endian byte serialization of a natural number to `len` bytes. -/
def natToBytes (n : Nat) (len : Nat) : Bytes :=
  (List.range len).map (fun i => n / 256 ^ i % 256)

/-- Model of `CryptoUtils.preform_diff_hellman_agreement`: plain DH
agreement, `private_key.exchange(peer_public_key)` returning 32 bytes. -/
def CryptoUtils.preform_diff_hellman_agreement (private_key : Nat) (public_key : Nat) : Bytes :=
  natToBytes (public_key ^ private_key % dhModulus) 32

/-- Keystream of the idealized AES-GCM cipher: byte `i` of the stream for a
given key and nonce. -/
def aeadKeystream (key nonce : Bytes) (i : Nat) : Nat :=
  (encodeBytes key * 524287 + encodeBytes nonce * 8191 + i * 127 + 13) % 256

/-- XOR a byte string against the idealized AES-GCM keystream starting at
stream offset `i` (its own inverse at the same offset). -/
def xorKS (key nonce : Bytes) : Nat → Bytes → Bytes
  | _, [] => []
  | i, b :: bs => (b ^^^ aeadKeystream key nonce i) :: xorKS key nonce (i + 1) bs

/-- Idealized 16-byte AES-GCM authentication tag over key, nonce, plaintext
and associated data. -/
def gcmTag (key nonce pt aad : Bytes) : Bytes :=
  (List.range 16).map
    (fun i => (encodeBytes key * 131071 + encodeBytes nonce * 31 +
               encodeBytes pt * 8209 + encodeBytes aad * 257 + i * 61 + 3) % 256)

/-- Idealized `AESGCM.encrypt`: ciphertext body (plaintext XOR keystream)
followed by the 16-byte tag. -/
def AESGCM.encrypt (key nonce pt aad : Bytes) : Bytes :=
  xorKS key nonce 0 pt ++ gcmTag key nonce pt aad

/-- Idealized `AESGCM.decrypt`: split off the 16-byte tag, recover the
plaintext, and verify the tag; `none` models the InvalidTag exception. -/
def AESGCM.decrypt (key nonce ct aad : Bytes) : Option Bytes :=
  if ct.length < 16 then none
  else
    let body := ct.take (ct.length - 16)
    let tag := ct.drop (ct.length - 16)
    let pt := xorKS key nonce 0 body
    if gcmTag key nonce pt aad = tag then some pt else none

/-- Failure modes of `CryptoUtils.encrypt` / `CryptoUtils.decrypt`
(`crypto_utils.py` raises ValueError for the first two and propagates the
AEAD InvalidTag exception for the third). -/
inductive CryptoErr
  | invalidKeyLength
  | ciphertextTooShort
  | tagMismatch
deriving DecidableEq

/-- Model of `CryptoUtils.encrypt` (crypto_utils.py lines 35-46): reject a
key whose length is not 32, then return nonce12 followed by the AES-GCM
ciphertext-with-tag.  The randomly sampled nonce is an explicit
parameter. -/
def CryptoUtils.encrypt (key : Bytes) (plaintext : Bytes) (associated_data : Bytes)
    (nonce : Bytes) : Except CryptoErr Bytes :=
  if key.length ≠ 32 then .error .invalidKeyLength
  else .ok (nonce ++ AESGCM.encrypt key nonce plaintext associated_data)

/-- Model of `CryptoUtils.decrypt` (crypto_utils.py lines 48-71): reject a
key whose length is not 32 or an input shorter than 28 bytes, split the
first 12 bytes as the nonce, and AEAD-decrypt the rest. -/
def CryptoUtils.decrypt (key : Bytes) (ciphertext_with_nonce : Bytes)
    (associated_data : Bytes) : Except CryptoErr Bytes :=
  if key.length ≠ 32 then .error .invalidKeyLength
  else if ciphertext_with_nonce.length < 28 then .error .ciphertextTooShort
  else
    match AESGCM.decrypt key (ciphertext_with_nonce.take 12)
        (ciphertext_with_nonce.drop 12) associated_data with
    | some pt => .ok pt
    | none => .error .tagMismatch

theorem length_hkdf (ikm info : Bytes) (len : Nat) :
    (CryptoUtils.perform_key_derivation_using_hkdf ikm info len).length = len := by
  simp [CryptoUtils.perform_key_derivation_using_hkdf]

theorem length_xorKS (key nonce : Bytes) : ∀ (i : Nat) (l : Bytes),
    (xorKS key nonce i l).length = l.length := by
  intro i l
  induction l generalizing i with
  | nil => rfl
  | cons b bs ih => simp [xorKS, ih]

theorem xorKS_xorKS (key nonce : Bytes) : ∀ (i : Nat) (l : Bytes),
    xorKS key nonce i (xorKS key nonce i l) = l := by
  intro i l
  induction l generalizing i with
  | nil => rfl
  | cons b bs ih => simp [xorKS, ih, Nat.xor_cancel_right]

theorem length_gcmTag (key nonce pt aad : Bytes) : (gcmTag key nonce pt aad).length = 16 := by
  simp [gcmTag]

/-- The idealized AES-GCM round-trips on matching key, nonce and aad. -/
theorem aesgcm_decrypt_encrypt (key nonce pt aad : Bytes) :
    AESGCM.decrypt key nonce (AESGCM.encrypt key nonce pt aad) aad = some pt := by
  have hlen : (AESGCM.encrypt key nonce pt aad).length = (xorKS key nonce 0 pt).length + 16 := by
    simp [AESGCM.encrypt, length_gcmTag]
  have hbodylen : ¬ (AESGCM.encrypt key nonce pt aad).length < 16 := by omega
  have htake : (AESGCM.encrypt key nonce pt aad).take
      ((AESGCM.encrypt key nonce pt aad).length - 16) = xorKS key nonce 0 pt := by
    rw [hlen]
    simpa [AESGCM.encrypt] using
      List.take_left (xorKS key nonce 0 pt) (gcmTag key nonce pt aad)
  have hdrop : (AESGCM.encrypt key nonce pt aad).drop
      ((AESGCM.encrypt key nonce pt aad).length - 16) = gcmTag key nonce pt aad := by
    rw [hlen]
    simpa [AESGCM.encrypt] using
      List.drop_left (xorKS key nonce 0 pt) (gcmTag key nonce pt aad)
  simp only [AESGCM.decrypt, hbodylen, if_false, htake, hdrop, xorKS_xorKS]
  simp

/-- Shared round-trip fact for `CryptoUtils`: decrypt inverts encrypt when
the key has 32 bytes and the nonce 12. -/
theorem cryptoUtils_decrypt_encrypt (key pt aad nonce : Bytes)
    (hk : key.length = 32) (hn : nonce.length = 12) :
    CryptoUtils.decrypt key (nonce ++ AESGCM.encrypt key nonce pt aad) aad = .ok pt := by
  have henvlen : (nonce ++ AESGCM.encrypt key nonce pt aad).length =
      pt.length + 28 := by
    simp [AESGCM.encrypt, length_gcmTag, length_xorKS, hn]
    omega
  have hshort : ¬ (nonce ++ AESGCM.encrypt key nonce pt aad).length < 28 := by omega
  have htake : (nonce ++ AESGCM.encrypt key nonce pt aad).take 12 = nonce := by
    simpa [hn] using List.take_left nonce (AESGCM.encrypt key nonce pt aad)
  have hdrop : (nonce ++ AESGCM.encrypt key nonce pt aad).drop 12 =
      AESGCM.encrypt key nonce pt aad := by
    simpa [hn] using List.drop_left nonce (AESGCM.encrypt key nonce pt aad)
  simp only [CryptoUtils.decrypt, hk]
  simp only [if_false, hshort, htake, hdrop, aesgcm_decrypt_encrypt]
  simp

/-- C4: for every 32-byte key, every plaintext and every associated-data
value (and every 12-byte nonce sample), `aead_decrypt` applied to the
output of `aead_encrypt` with the same key and associated data returns the
original plaintext; the encrypt output is nonce12 followed by the
ciphertext-with-16-byte-tag, and decrypt splits the first 12 bytes as the
nonce. -/
theorem aead_roundtrip (key pt aad nonce : Bytes)
    (hk : key.length = 32) (hn : nonce.length = 12) :
    ∃ env, CryptoUtils.encrypt key pt aad nonce = .ok env ∧
      env.take 12 = nonce ∧
      env.length = pt.length + 28 ∧
      CryptoUtils.decrypt key env aad = .ok pt := by
  refine ⟨nonce ++ AESGCM.encrypt key nonce pt aad, ?_, ?_, ?_, ?_⟩
  · simp [CryptoUtils.encrypt, hk]
  · simpa [hn] using List.take_left nonce (AESGCM.encrypt key nonce pt aad)
  · simp [AESGCM.encrypt, length_gcmTag, length_xorKS, hn]
    omega
  · exact cryptoUtils_decrypt_encrypt key pt aad nonce hk hn

/-- Closed instance of `aead_roundtrip` at a concrete key, plaintext,
associated data and nonce. -/
theorem aead_roundtrip_witness :
    (List.replicate 32 7 : Bytes).length = 32 ∧
    (List.replicate 12 1 : Bytes).length = 12 ∧
    ∃ env, CryptoUtils.encrypt (List.replicate 32 7) [10, 20, 30] [4] (List.replicate 12 1) = .ok env ∧
      env.take 12 = List.replicate 12 1 ∧
      env.length = ([10, 20, 30] : Bytes).length + 28 ∧
      CryptoUtils.decrypt (List.replicate 32 7) env [4] = .ok [10, 20, 30] :=
  ⟨by decide, by decide,
   aead_roundtrip (List.replicate 32 7) [10, 20, 30] [4] (List.replicate 12 1)
     (by decide) (by decide)⟩

/-- ASCII bytes of the info string used by the DH ratchet step. -/
def infoRatchetStep : Bytes := [82, 97, 116, 99, 104, 101, 116, 83, 116, 101, 112]

/-- ASCII bytes of the info string used for message-key derivation. -/
def infoMessageKey : Bytes := [77, 101, 115, 115, 97, 103, 101, 75, 101, 121]

/-- ASCII bytes of the info string used for chain-key derivation. -/
def infoChainKey : Bytes := [67, 104, 97, 105, 110, 75, 101, 121]

/-- ASCII bytes of the info string used for root-key derivation. -/
def infoRootKey : Bytes := [82, 111, 111, 116, 75, 101, 121]

/-- ASCII bytes of the info string used for X3DH shared-secret derivation. -/
def infoX3DHSharedSecret : Bytes :=
  [88, 51, 68, 72, 83, 104, 97, 114, 101, 100, 83, 101, 99, 114, 101, 116]

/-- Modelled from the spec: `constants.py` is imported by the ratchet module
(`from core_backend.constants import *`) but is absent from the source tree;
the spec fixes chain keys at 32 bytes. -/
def CHAIN_KEY_LENGTH : Nat := 32

/-- Modelled from the spec: `constants.py` is absent from the source tree;
the spec fixes the root key derived from the X3DH secret at 32 bytes. -/
def ROOT_KEY_LENGTH : Nat := 32

/-- Skipped-message-key cache: association list modelling the Python dict
keyed by (ratchet public key, message number). -/
abbrev SKMap := List ((Nat × Nat) × Bytes)

/-- Dict lookup on the skipped-key cache. -/
def lookupSK (k : Nat × Nat) : SKMap → Option Bytes
  | [] => none
  | (k', v) :: rest => if k' = k then some v else lookupSK k rest

/-- Dict assignment on the skipped-key cache (replace in place or append). -/
def insertSK (k : Nat × Nat) (v : Bytes) : SKMap → SKMap
  | [] => [(k, v)]
  | (k', v') :: rest => if k' = k then (k, v) :: rest else (k', v') :: insertSK k v rest

/-- Dict `pop` on the skipped-key cache: remove the entry for `k`. -/
def popSK (k : Nat × Nat) : SKMap → SKMap
  | [] => []
  | (k', v') :: rest => if k' = k then rest else (k', v') :: popSK k rest

/-- The cache holds at most one entry per key (invariant of a Python dict). -/
abbrev keysNodup (m : SKMap) : Prop := (m.map Prod.fst).Nodup

theorem lookupSK_insert_self (k : Nat × Nat) (v : Bytes) (m : SKMap) :
    lookupSK k (insertSK k v m) = some v := by
  induction m with
  | nil => simp [insertSK, lookupSK]
  | cons e rest ih =>
    obtain ⟨k', v'⟩ := e
    by_cases h : k' = k
    · simp [insertSK, h, lookupSK]
    · simp [insertSK, h, lookupSK, ih]

theorem lookupSK_insert_ne (q k : Nat × Nat) (v : Bytes) (m : SKMap) (h : q ≠ k) :
    lookupSK q (insertSK k v m) = lookupSK q m := by
  have hkq : k ≠ q := Ne.symm h
  induction m with
  | nil => simp [insertSK, lookupSK, hkq]
  | cons e rest ih =>
    obtain ⟨k', v'⟩ := e
    by_cases hk : k' = k
    · subst hk
      simp [insertSK, lookupSK, hkq]
    · simp [insertSK, hk, lookupSK, ih]

theorem lookupSK_pop_ne (q k : Nat × Nat) (m : SKMap) (h : q ≠ k) :
    lookupSK q (popSK k m) = lookupSK q m := by
  have hkq : k ≠ q := Ne.symm h
  induction m with
  | nil => rfl
  | cons e rest ih =>
    obtain ⟨k', v'⟩ := e
    by_cases hk : k' = k
    · subst hk
      simp [popSK, lookupSK, hkq]
    · simp [popSK, hk, lookupSK, ih]

theorem lookupSK_eq_none_of_not_mem (k : Nat × Nat) (m : SKMap)
    (h : k ∉ m.map Prod.fst) : lookupSK k m = none := by
  induction m with
  | nil => rfl
  | cons e rest ih =>
    obtain ⟨k', v'⟩ := e
    simp only [List.map_cons, List.mem_cons] at h
    push_neg at h
    have hne : k' ≠ k := fun hh => h.1 hh.symm
    simp [lookupSK, hne, ih h.2]

theorem lookupSK_pop_self (k : Nat × Nat) (m : SKMap) (h : keysNodup m) :
    lookupSK k (popSK k m) = none := by
  induction m with
  | nil => rfl
  | cons e rest ih =>
    obtain ⟨k', v'⟩ := e
    simp only [keysNodup, List.map_cons, List.nodup_cons] at h
    by_cases hk : k' = k
    · subst hk
      simpa [popSK] using lookupSK_eq_none_of_not_mem k' rest h.1
    · simp [popSK, hk, lookupSK, ih h.2]

theorem popSK_sublist (k : Nat × Nat) (m : SKMap) : (popSK k m).Sublist m := by
  induction m with
  | nil => simp [popSK]
  | cons e rest ih =>
    obtain ⟨k', v'⟩ := e
    by_cases hk : k' = k
    · simpa [popSK, hk] using List.sublist_cons_self (k', v') rest
    · simpa [popSK, hk] using ih.cons₂ (k', v')

theorem keysNodup_popSK (k : Nat × Nat) (m : SKMap) (h : keysNodup m) :
    keysNodup (popSK k m) := by
  exact h.sublist ((popSK_sublist k m).map Prod.fst)

theorem mem_popSK (k : Nat × Nat) (m : SKMap) (e : (Nat × Nat) × Bytes)
    (hnd : keysNodup m) (he : e ∈ popSK k m) : e ∈ m ∧ e.1 ≠ k := by
  induction m with
  | nil => simp [popSK] at he
  | cons hd rest ih =>
    obtain ⟨k', v'⟩ := hd
    simp only [keysNodup, List.map_cons, List.nodup_cons] at hnd
    by_cases hk : k' = k
    · subst hk
      simp only [popSK, if_pos rfl] at he
      refine ⟨List.mem_cons_of_mem _ he, ?_⟩
      intro hek
      exact hnd.1 (hek ▸ List.mem_map_of_mem Prod.fst he)
    · simp only [popSK, if_neg hk] at he
      rcases List.mem_cons.mp he with h1 | h1
      · exact ⟨by simp [h1], by simp [h1, hk]⟩
      · obtain ⟨h2, h3⟩ := ih hnd.2 h1
        exact ⟨List.mem_cons_of_mem _ h2, h3⟩

theorem mem_keys_insertSK (q k : Nat × Nat) (v : Bytes) (m : SKMap) :
    q ∈ (insertSK k v m).map Prod.fst ↔ q = k ∨ q ∈ m.map Prod.fst := by
  induction m with
  | nil => simp [insertSK]
  | cons e rest ih =>
    obtain ⟨k', v'⟩ := e
    by_cases hk : k' = k
    · subst hk
      simp [insertSK]
    · simp only [insertSK, if_neg hk, List.map_cons, List.mem_cons, ih]
      tauto

theorem keysNodup_insertSK (k : Nat × Nat) (v : Bytes) (m : SKMap) (h : keysNodup m) :
    keysNodup (insertSK k v m) := by
  induction m with
  | nil => simp [insertSK, keysNodup]
  | cons e rest ih =>
    obtain ⟨k', v'⟩ := e
    simp only [keysNodup, List.map_cons, List.nodup_cons] at h
    by_cases hk : k' = k
    · subst hk
      simpa [insertSK, keysNodup] using h
    · have hmem2 : k' ∉ (insertSK k v rest).map Prod.fst := by
        intro hmem
        rcases (mem_keys_insertSK k' k v rest).mp hmem with h1 | h1
        · exact hk h1
        · exact h.1 h1
      simp only [keysNodup, insertSK, if_neg hk, List.map_cons]
      exact List.nodup_cons.mpr ⟨hmem2, ih h.2⟩

theorem mem_lookupSK (m : SKMap) (e : (Nat × Nat) × Bytes)
    (hnd : keysNodup m) (he : e ∈ m) : lookupSK e.1 m = some e.2 := by
  induction m with
  | nil => simp at he
  | cons hd rest ih =>
    obtain ⟨k', v'⟩ := hd
    simp only [keysNodup, List.map_cons, List.nodup_cons] at hnd
    rcases List.mem_cons.mp he with h1 | h1
    · simp [h1, lookupSK]
    · have hne : k' ≠ e.1 := by
        intro hh
        exact hnd.1 (hh ▸ List.mem_map_of_mem Prod.fst h1)
      simp [lookupSK, hne, ih hnd.2 h1]

theorem lookupSK_some_mem (k : Nat × Nat) (v : Bytes) (m : SKMap)
    (h : lookupSK k m = some v) : (k, v) ∈ m := by
  induction m with
  | nil => simp [lookupSK] at h
  | cons hd rest ih =>
    obtain ⟨k', v'⟩ := hd
    by_cases hk : k' = k
    · subst hk
      rw [lookupSK, if_pos rfl] at h
      cases h
      exact List.mem_cons_self _ _
    · rw [lookupSK, if_neg hk] at h
      exact List.mem_cons_of_mem _ (ih h)

/-- Model of the `RatchetState` class (double_ratchet_algorithm.py lines
9-22); private keys are idealized scalars, public keys their idealized
group elements. -/
structure RatchetState where
  root_key : Option Bytes
  chain_key_send : Option Bytes
  chain_key_recv : Option Bytes
  next_header_key_send : Option Bytes
  next_header_key_recv : Option Bytes
  message_number_send : Nat
  message_number_recv : Nat
  previous_chain_length : Nat
  ratchet_private_key : Option Nat
  ratchet_public_key : Option Nat
  remote_public_key : Option Nat
  skipped_message_keys : SKMap
deriving DecidableEq

/-- The state built by `RatchetState.__init__`. -/
def initialRatchetState : RatchetState :=
  { root_key := none
    chain_key_send := none
    chain_key_recv := none
    next_header_key_send := none
    next_header_key_recv := none
    message_number_send := 0
    message_number_recv := 0
    previous_chain_length := 0
    ratchet_private_key := none
    ratchet_public_key := none
    remote_public_key := none
    skipped_message_keys := [] }

/-- Exceptions raised by the ratchet methods.  `typeError` models Python
TypeError/AttributeError from operating on a `None` field. -/
inductive DrError
  | cryptoFailure (e : CryptoErr)
  | tooManySkip
  | noRecvChain
  | noRemoteKey
  | typeError
deriving DecidableEq

/-- Map a `CryptoUtils` failure into a ratchet failure. -/
def liftCrypto : Except CryptoErr Bytes → Except DrError Bytes
  | .ok b => .ok b
  | .error e => .error (.cryptoFailure e)

/-- Model of `DoubleRatchetAlgoImpl._dh_ratchet_send` (lines 29-50): save
the sending-chain length, reset the send counter, install a fresh ratchet
key pair (`newPriv` is the sampled private scalar), then derive the new
root key and sending chain key.  Mutations made before the derivation
persist even if `root_key` is `None` (Python raises TypeError there). -/
def DoubleRatchetAlgoImpl.dh_ratchet_send (st : RatchetState) (remotes_public_key : Nat)
    (newPriv : Nat) : Except DrError Unit × RatchetState :=
  let st1 := { st with
    previous_chain_length := st.message_number_send
    message_number_send := 0
    ratchet_private_key := some newPriv
    ratchet_public_key := some (pubKeyOf newPriv) }
  match st1.root_key with
  | none => (.error .typeError, st1)
  | some rk =>
    let dh_send := CryptoUtils.preform_diff_hellman_agreement newPriv remotes_public_key
    let kdf_output := CryptoUtils.perform_key_derivation_using_hkdf (rk ++ dh_send) infoRatchetStep 64
    (.ok (), { st1 with
      root_key := some (kdf_output.take 32)
      chain_key_send := some (kdf_output.drop 32) })

/-- Model of `DoubleRatchetAlgoImpl._dh_ratchet_receive` (lines 52-70):
reset the receive counter, record the remote ratchet key, then derive the
new root key and receiving chain key with the current ratchet private
key. -/
def DoubleRatchetAlgoImpl.dh_ratchet_receive (st : RatchetState)
    (remotes_public_key : Nat) : Except DrError Unit × RatchetState :=
  let st1 := { st with
    message_number_recv := 0
    remote_public_key := some remotes_public_key }
  match st1.ratchet_private_key with
  | none => (.error .typeError, st1)
  | some priv =>
    match st1.root_key with
    | none => (.error .typeError, st1)
    | some rk =>
      let dh_recv := CryptoUtils.preform_diff_hellman_agreement priv remotes_public_key
      let kdf_output := CryptoUtils.perform_key_derivation_using_hkdf (rk ++ dh_recv) infoRatchetStep 64
      (.ok (), { st1 with
        root_key := some (kdf_output.take 32)
        chain_key_recv := some (kdf_output.drop 32) })

/-- Model of `DoubleRatchetAlgoImpl.init_alice` (lines 72-85). -/
def DoubleRatchetAlgoImpl.init_alice (st : RatchetState) (shared_secret : Bytes)
    (bob_signed_prekey : Nat) (newPriv : Nat) : Except DrError Unit × RatchetState :=
  let st1 := { st with
    root_key := some (CryptoUtils.perform_key_derivation_using_hkdf shared_secret infoRootKey ROOT_KEY_LENGTH)
    remote_public_key := some bob_signed_prekey }
  DoubleRatchetAlgoImpl.dh_ratchet_send st1 bob_signed_prekey newPriv

/-- Model of `DoubleRatchetAlgoImpl.init_bob` (lines 87-105). -/
def DoubleRatchetAlgoImpl.init_bob (st : RatchetState) (shared_secret : Bytes)
    (bob_key_pair : Nat × Nat) (alice_ratchet_public_key : Option Nat) :
    Except DrError Unit × RatchetState :=
  let st1 := { st with
    root_key := some (CryptoUtils.perform_key_derivation_using_hkdf shared_secret infoRootKey ROOT_KEY_LENGTH)
    ratchet_private_key := some bob_key_pair.1
    ratchet_public_key := some bob_key_pair.2 }
  match alice_ratchet_public_key with
  | some apk =>
    DoubleRatchetAlgoImpl.dh_ratchet_receive { st1 with remote_public_key := some apk } apk
  | none => (.ok (), st1)

/-- Model of `DoubleRatchetAlgoImpl._symmetric_ratchet` (lines 107-120):
message key from `chain_key` with 0x01 appended, next chain key from
`chain_key` with 0x02 appended. -/
def DoubleRatchetAlgoImpl.symmetric_ratchet (chain_key : Bytes) : Bytes × Bytes :=
  (CryptoUtils.perform_key_derivation_using_hkdf (chain_key ++ [1]) infoMessageKey 32,
   CryptoUtils.perform_key_derivation_using_hkdf (chain_key ++ [2]) infoChainKey CHAIN_KEY_LENGTH)

/-- Loop body of `_skip_message_keys` (lines 208-211): derive and cache
`cnt` message keys starting at number `start`, returning the advanced chain
key and the extended cache. -/
def skipChainLoop (pk : Nat) : Nat → Nat → Bytes → SKMap → Bytes × SKMap
  | _, 0, ck, skipped => (ck, skipped)
  | start, c + 1, ck, skipped =>
    let mkck := DoubleRatchetAlgoImpl.symmetric_ratchet ck
    skipChainLoop pk (start + 1) c mkck.2 (insertSK (pk, start) mkck.1 skipped)

/-- Model of `DoubleRatchetAlgoImpl._skip_message_keys` (lines 190-213):
no-ops without a receiving chain or public key; refuses a jump of more than
1000 positions; otherwise caches the keys for numbers `start` to
`untilN - 1` and advances the receiving chain key. -/
def DoubleRatchetAlgoImpl.skip_message_keys (st : RatchetState) (public_key : Option Nat)
    (start untilN : Nat) : Except DrError Unit × RatchetState :=
  match st.chain_key_recv with
  | none => (.ok (), st)
  | some ck =>
    match public_key with
    | none => (.ok (), st)
    | some pk =>
      if start + 1000 < untilN then (.error .tooManySkip, st)
      else if untilN ≤ start then (.ok (), st)
      else
        let r := skipChainLoop pk start (untilN - start) ck st.skipped_message_keys
        (.ok (), { st with chain_key_recv := some r.1, skipped_message_keys := r.2 })

/-- Second step of `DoubleRatchetAlgoImpl.decrypt` (lines 159-172): on a new
ratchet public key, first cache the keys remaining in the old receiving
chain up to `previous_chain_length`, then perform a receiving DH ratchet
step. -/
def DoubleRatchetAlgoImpl.decryptChainStep (st : RatchetState) (remote_public_key : Nat) :
    Except DrError Unit × RatchetState :=
  if st.remote_public_key = some remote_public_key then (.ok (), st)
  else
    let inner : Except DrError Unit × RatchetState :=
      match st.chain_key_recv, st.remote_public_key with
      | some _, some old =>
        DoubleRatchetAlgoImpl.skip_message_keys st (some old) st.message_number_recv
          st.previous_chain_length
      | _, _ => (.ok (), st)
    match inner with
    | (.error e, st1) => (.error e, st1)
    | (.ok _, st1) => DoubleRatchetAlgoImpl.dh_ratchet_receive st1 remote_public_key

/-- Model of `DoubleRatchetAlgoImpl.decrypt` (lines 148-188): consume a
cached skipped key if present; otherwise handle a possible new chain, cache
any keys skipped within the current chain, advance the symmetric ratchet,
set `message_number_recv`, and AEAD-decrypt.  As in the Python code, all
state mutations made before a failing step persist. -/
def DoubleRatchetAlgoImpl.decrypt (st : RatchetState) (ciphertext : Bytes)
    (remote_public_key : Nat) (message_number : Nat) : Except DrError Bytes × RatchetState :=
  match lookupSK (remote_public_key, message_number) st.skipped_message_keys with
  | some message_key =>
    let st1 := { st with
      skipped_message_keys := popSK (remote_public_key, message_number) st.skipped_message_keys }
    (liftCrypto (CryptoUtils.decrypt message_key ciphertext []), st1)
  | none =>
    match DoubleRatchetAlgoImpl.decryptChainStep st remote_public_key with
    | (.error e, st1) => (.error e, st1)
    | (.ok _, st1) =>
      match DoubleRatchetAlgoImpl.skip_message_keys st1 (some remote_public_key)
          st1.message_number_recv message_number with
      | (.error e, st2) => (.error e, st2)
      | (.ok _, st2) =>
        match st2.chain_key_recv with
        | none => (.error .noRecvChain, st2)
        | some ck =>
          let mkck := DoubleRatchetAlgoImpl.symmetric_ratchet ck
          let st3 := { st2 with
            chain_key_recv := some mkck.2
            message_number_recv := message_number + 1 }
          (liftCrypto (CryptoUtils.decrypt mkck.1 ciphertext []), st3)

/-- Body of `DoubleRatchetAlgoImpl.encrypt` after the sending chain exists
(lines 132-146): advance the sending chain, AEAD-encrypt under the message
key, and increment the send counter.  A missing ratchet public key would
make the Python code raise TypeError after the counter increment. -/
def DoubleRatchetAlgoImpl.encryptBody (st : RatchetState) (plaintext nonce : Bytes) :
    Except DrError (Bytes × Nat × Nat) × RatchetState :=
  match st.chain_key_send with
  | none => (.error .typeError, st)
  | some ck =>
    let mkck := DoubleRatchetAlgoImpl.symmetric_ratchet ck
    let st1 := { st with chain_key_send := some mkck.2 }
    match CryptoUtils.encrypt mkck.1 plaintext [] nonce with
    | .error e => (.error (.cryptoFailure e), st1)
    | .ok ciphertext =>
      let current_number := st1.message_number_send
      let st2 := { st1 with message_number_send := current_number + 1 }
      match st2.ratchet_public_key with
      | none => (.error .typeError, st2)
      | some pub => (.ok (ciphertext, pub, current_number), st2)

/-- Model of `DoubleRatchetAlgoImpl.encrypt` (lines 122-146): perform a
sending DH ratchet step first when no sending chain key exists (requires a
remote public key), then encrypt on the sending chain.  `nonce` is the
AEAD nonce sample and `newPriv` the private scalar sampled by a DH step. -/
def DoubleRatchetAlgoImpl.encrypt (st : RatchetState) (plaintext : Bytes)
    (nonce : Bytes) (newPriv : Nat) : Except DrError (Bytes × Nat × Nat) × RatchetState :=
  match st.chain_key_send with
  | none =>
    match st.remote_public_key with
    | none => (.error .noRemoteKey, st)
    | some remote =>
      match DoubleRatchetAlgoImpl.dh_ratchet_send st remote newPriv with
      | (.error e, st1) => (.error e, st1)
      | (.ok _, st1) => DoubleRatchetAlgoImpl.encryptBody st1 plaintext nonce
  | some _ => DoubleRatchetAlgoImpl.encryptBody st plaintext nonce

/-- Model of the `PublicPreKey` dataclass (models.py lines 7-14); the
public keys are idealized group elements. -/
structure PublicPreKey where
  identity_key : Nat
  signed_prekey : Nat
  signed_prekey_signature : Bytes
  one_time_prekey : Option Nat
  device_id : Nat
  registration_id : Nat
deriving DecidableEq

/-- Model of `X3DH.calculate_agreement_alice` (double_ratchet_algorithm.py
lines 244-268). -/
def X3DH.calculate_agreement_alice (alice_identity_key alice_ephemeral_key : Nat)
    (bob_bundle : PublicPreKey) : Bytes :=
  let dh1 := CryptoUtils.preform_diff_hellman_agreement alice_identity_key bob_bundle.signed_prekey
  let dh2 := CryptoUtils.preform_diff_hellman_agreement alice_ephemeral_key bob_bundle.identity_key
  let dh3 := CryptoUtils.preform_diff_hellman_agreement alice_ephemeral_key bob_bundle.signed_prekey
  let diff_hellman_concat :=
    match bob_bundle.one_time_prekey with
    | some otpk =>
      dh1 ++ dh2 ++ dh3 ++ CryptoUtils.preform_diff_hellman_agreement alice_ephemeral_key otpk
    | none => dh1 ++ dh2 ++ dh3
  CryptoUtils.perform_key_derivation_using_hkdf diff_hellman_concat infoX3DHSharedSecret 32

/-- Model of `X3DH.calculate_agreement_bob` (double_ratchet_algorithm.py
lines 270-296). -/
def X3DH.calculate_agreement_bob (bob_identity_key bob_signed_prekey : Nat)
    (bob_one_time_prekey : Option Nat) (alice_identity_key alice_ephemeral_key : Nat) : Bytes :=
  let dh1 := CryptoUtils.preform_diff_hellman_agreement bob_signed_prekey alice_identity_key
  let dh2 := CryptoUtils.preform_diff_hellman_agreement bob_identity_key alice_ephemeral_key
  let dh3 := CryptoUtils.preform_diff_hellman_agreement bob_signed_prekey alice_ephemeral_key
  let diff_hellman_concat :=
    match bob_one_time_prekey with
    | some otpk =>
      dh1 ++ dh2 ++ dh3 ++ CryptoUtils.preform_diff_hellman_agreement otpk alice_ephemeral_key
    | none => dh1 ++ dh2 ++ dh3
  CryptoUtils.perform_key_derivation_using_hkdf diff_hellman_concat infoX3DHSharedSecret 32

/-- Commutativity of the idealized Diffie-Hellman agreement. -/
theorem dh_comm (a b : Nat) :
    CryptoUtils.preform_diff_hellman_agreement a (pubKeyOf b)
      = CryptoUtils.preform_diff_hellman_agreement b (pubKeyOf a) := by
  unfold CryptoUtils.preform_diff_hellman_agreement pubKeyOf
  have h : (dhBase ^ b % dhModulus) ^ a % dhModulus
      = (dhBase ^ a % dhModulus) ^ b % dhModulus := by
    rw [← Nat.pow_mod, ← Nat.pow_mod, ← pow_mul, ← pow_mul, Nat.mul_comm]
  rw [h]

/-- C3: for every pair of identity key pairs, every initiator ephemeral key
pair and every responder signed-prekey pair, with no one-time prekey on
either side, the initiator agreement over the responder's bundle and the
responder agreement over the initiator's public keys return the same
32-byte shared secret (both derive hkdf over mirror DH outputs in the same
fixed order). -/
theorem x3dh_agreement_symmetric (aliceId aliceEph bobId bobSpk : Nat)
    (sig : Bytes) (dev reg : Nat) :
    X3DH.calculate_agreement_alice aliceId aliceEph
        { identity_key := pubKeyOf bobId
          signed_prekey := pubKeyOf bobSpk
          signed_prekey_signature := sig
          one_time_prekey := none
          device_id := dev
          registration_id := reg }
      = X3DH.calculate_agreement_bob bobId bobSpk none (pubKeyOf aliceId) (pubKeyOf aliceEph)
    ∧ (X3DH.calculate_agreement_bob bobId bobSpk none (pubKeyOf aliceId)
        (pubKeyOf aliceEph)).length = 32 := by
  constructor
  · simp only [X3DH.calculate_agreement_alice, X3DH.calculate_agreement_bob]
    rw [dh_comm aliceId bobSpk, dh_comm aliceEph bobId, dh_comm aliceEph bobSpk]
  · exact length_hkdf ..

/-- C7: for every chain key, one symmetric ratchet step returns exactly the
message key hkdf(ck with 0x01 appended, info MessageKey, 32) and the next
chain key hkdf(ck with 0x02 appended, info ChainKey, 32), both 32 bytes. -/
theorem symmetric_ratchet_formula (ck : Bytes) :
    DoubleRatchetAlgoImpl.symmetric_ratchet ck
      = (CryptoUtils.perform_key_derivation_using_hkdf (ck ++ [1]) infoMessageKey 32,
         CryptoUtils.perform_key_derivation_using_hkdf (ck ++ [2]) infoChainKey 32)
    ∧ (DoubleRatchetAlgoImpl.symmetric_ratchet ck).1.length = 32
    ∧ (DoubleRatchetAlgoImpl.symmetric_ratchet ck).2.length = 32 :=
  ⟨rfl, length_hkdf .., length_hkdf ..⟩

/-- Chain key at position `i` of a receiving or sending chain that starts
from `ck0` (iterated symmetric ratchet). -/
def chainKeyAt (ck0 : Bytes) : Nat → Bytes
  | 0 => ck0
  | i + 1 => (DoubleRatchetAlgoImpl.symmetric_ratchet (chainKeyAt ck0 i)).2

/-- Message key for position `i` of the chain starting from `ck0`. -/
def messageKeyAt (ck0 : Bytes) (i : Nat) : Bytes :=
  (DoubleRatchetAlgoImpl.symmetric_ratchet (chainKeyAt ck0 i)).1

/-- Wire envelope of message number `n` of the chain starting from `ck0`,
as produced by `encrypt` with nonce sample `nc`. -/
def envOf (ck0 : Bytes) (n : Nat) (pt nc : Bytes) : Bytes :=
  nc ++ AESGCM.encrypt (messageKeyAt ck0 n) nc pt []

theorem length_messageKeyAt (ck0 : Bytes) (i : Nat) : (messageKeyAt ck0 i).length = 32 :=
  length_hkdf ..

/-- Evaluation of `encryptBody` on a state with a sending chain key: the
post-state advances exactly the sending chain key and send counter. -/
theorem encryptBody_state (st : RatchetState) (pt nonce ck : Bytes)
    (h : st.chain_key_send = some ck) :
    (DoubleRatchetAlgoImpl.encryptBody st pt nonce).2 =
      { st with chain_key_send := some (DoubleRatchetAlgoImpl.symmetric_ratchet ck).2
                message_number_send := st.message_number_send + 1 } := by
  have hlen : (DoubleRatchetAlgoImpl.symmetric_ratchet ck).1.length = 32 := length_hkdf ..
  cases hpub : st.ratchet_public_key <;>
    simp [DoubleRatchetAlgoImpl.encryptBody, h, CryptoUtils.encrypt, hlen, hpub]

/-- Full evaluation of `encrypt` on a state holding a sending chain key and
a ratchet public key. -/
theorem encrypt_eval (st : RatchetState) (pt nonce : Bytes) (priv : Nat) (ck : Bytes) (R : Nat)
    (h : st.chain_key_send = some ck) (hpub : st.ratchet_public_key = some R) :
    DoubleRatchetAlgoImpl.encrypt st pt nonce priv =
      (.ok (nonce ++ AESGCM.encrypt (DoubleRatchetAlgoImpl.symmetric_ratchet ck).1 nonce pt [],
         R, st.message_number_send),
       { st with chain_key_send := some (DoubleRatchetAlgoImpl.symmetric_ratchet ck).2
                 message_number_send := st.message_number_send + 1 }) := by
  have hlen : (DoubleRatchetAlgoImpl.symmetric_ratchet ck).1.length = 32 := length_hkdf ..
  simp [DoubleRatchetAlgoImpl.encrypt, h, DoubleRatchetAlgoImpl.encryptBody,
        CryptoUtils.encrypt, hlen, hpub]

/-- Fold of `encrypt` over a list of (plaintext, nonce) pairs: the sender
emitting a sequence of messages on one chain. -/
def senderRun : RatchetState → List (Bytes × Bytes) →
    List (Except DrError (Bytes × Nat × Nat)) × RatchetState
  | st, [] => ([], st)
  | st, (pt, nc) :: rest =>
    let r := DoubleRatchetAlgoImpl.encrypt st pt nc 0
    let rr := senderRun r.2 rest
    (r.1 :: rr.1, rr.2)

/-- Plaintext/nonce pairs of messages numbered `j` to `j + m - 1`. -/
def msgListFrom (pt nc : Nat → Bytes) : Nat → Nat → List (Bytes × Bytes)
  | _, 0 => []
  | j, m + 1 => (pt j, nc j) :: msgListFrom pt nc (j + 1) m

/-- The envelopes and numbers `encrypt` is expected to emit for messages
`j` to `j + m - 1` of the chain starting from `ck0`. -/
def expectedFrom (ck0 : Bytes) (R : Nat) (pt nc : Nat → Bytes) :
    Nat → Nat → List (Except DrError (Bytes × Nat × Nat))
  | _, 0 => []
  | j, m + 1 =>
    .ok (envOf ck0 j (pt j) (nc j), R, j) :: expectedFrom ck0 R pt nc (j + 1) m

/-- The sender's run on one chain emits, in order, the envelope of each
message under its message key together with the chain's ratchet public key
and the consecutive message numbers. -/
theorem senderRun_msgs (ck0 : Bytes) (R : Nat) (pt nc : Nat → Bytes) :
    ∀ (m j : Nat) (st : RatchetState),
      st.chain_key_send = some (chainKeyAt ck0 j) →
      st.message_number_send = j →
      st.ratchet_public_key = some R →
      (senderRun st (msgListFrom pt nc j m)).1 = expectedFrom ck0 R pt nc j m := by
  intro m
  induction m with
  | zero => intro j st _ _ _; rfl
  | succ m ih =>
    intro j st h1 h2 h3
    have hstep := encrypt_eval st (pt j) (nc j) 0 (chainKeyAt ck0 j) R h1 h3
    have htail := ih (j + 1) { st with
        chain_key_send := some (DoubleRatchetAlgoImpl.symmetric_ratchet (chainKeyAt ck0 j)).2
        message_number_send := st.message_number_send + 1 }
      (by simp [chainKeyAt]) (by simp [h2]) (by simp [h3])
    rw [h2] at htail
    simp only [msgListFrom, senderRun, hstep, expectedFrom, envOf, messageKeyAt, h2, htail]

/-- Characterization of the skip loop started at position `start` of the
chain from `ck0`: it advances the chain key by `cnt` steps and caches
exactly the message keys for positions `start` to `start + cnt - 1` under
`pk`, leaving every other cache entry unchanged and keys without
duplicates. -/
theorem skipChainLoop_spec (ck0 : Bytes) (pk : Nat) :
    ∀ (cnt start : Nat) (skipped : SKMap),
      (skipChainLoop pk start cnt (chainKeyAt ck0 start) skipped).1
        = chainKeyAt ck0 (start + cnt) ∧
      (∀ a b : Nat,
        lookupSK (a, b) (skipChainLoop pk start cnt (chainKeyAt ck0 start) skipped).2 =
          if a = pk ∧ start ≤ b ∧ b < start + cnt then some (messageKeyAt ck0 b)
          else lookupSK (a, b) skipped) ∧
      (keysNodup skipped →
        keysNodup (skipChainLoop pk start cnt (chainKeyAt ck0 start) skipped).2) := by
  intro cnt
  induction cnt with
  | zero =>
    intro start skipped
    refine ⟨rfl, ?_, fun h => h⟩
    intro a b
    have hfalse : ¬ (a = pk ∧ start ≤ b ∧ b < start + 0) := by omega
    rw [if_neg hfalse]
    rfl
  | succ c ih =>
    intro start skipped
    have hunfold : skipChainLoop pk start (c + 1) (chainKeyAt ck0 start) skipped
        = skipChainLoop pk (start + 1) c (chainKeyAt ck0 (start + 1))
            (insertSK (pk, start) (messageKeyAt ck0 start) skipped) := rfl
    obtain ⟨ih1, ih2, ih3⟩ := ih (start + 1) (insertSK (pk, start) (messageKeyAt ck0 start) skipped)
    refine ⟨?_, ?_, ?_⟩
    · rw [hunfold, ih1]
      congr 1
      omega
    · intro a b
      rw [hunfold, ih2 a b]
      by_cases hb : a = pk ∧ b = start
      · obtain ⟨ha, hb'⟩ := hb
        subst ha
        subst hb'
        have h1 : ¬ (a = a ∧ b + 1 ≤ b ∧ b < b + 1 + c) := by omega
        have h2 : a = a ∧ b ≤ b ∧ b < b + (c + 1) := by omega
        rw [if_neg h1, if_pos h2, lookupSK_insert_self]
      · have hne : (a, b) ≠ (pk, start) :=
          fun hh => hb ⟨congrArg Prod.fst hh, congrArg Prod.snd hh⟩
        rw [lookupSK_insert_ne (a, b) (pk, start) _ skipped hne]
        by_cases hc1 : a = pk ∧ start + 1 ≤ b ∧ b < start + 1 + c
        · have hc2 : a = pk ∧ start ≤ b ∧ b < start + (c + 1) := by
            obtain ⟨x, y, z⟩ := hc1
            exact ⟨x, by omega, by omega⟩
          rw [if_pos hc1, if_pos hc2]
        · have hc2 : ¬ (a = pk ∧ start ≤ b ∧ b < start + (c + 1)) := by
            intro hcc
            apply hc1
            obtain ⟨ha, hb2, hb3⟩ := hcc
            refine ⟨ha, ?_, by omega⟩
            rcases Nat.eq_or_lt_of_le hb2 with he | hl
            · exact absurd ⟨ha, he.symm⟩ hb
            · omega
          rw [if_neg hc1, if_neg hc2]
    · intro hnd
      exact ih3 (keysNodup_insertSK (pk, start) (messageKeyAt ck0 start) skipped hnd)

/-- Receiver-side invariant for one receiving chain: the tracked remote
ratchet key is `R`, the receiving chain key sits at the frontier
`message_number_recv` of the chain from `ck0`, and the skipped-key cache
holds exactly the message keys of the not-yet-delivered positions below
the frontier.  `delivered` lists the message numbers already consumed. -/
def RecvInv (ck0 : Bytes) (R : Nat) (delivered : List Nat) (st : RatchetState) : Prop :=
  st.remote_public_key = some R ∧
  st.chain_key_recv = some (chainKeyAt ck0 st.message_number_recv) ∧
  keysNodup st.skipped_message_keys ∧
  (∀ i < st.message_number_recv, i ∉ delivered →
    lookupSK (R, i) st.skipped_message_keys = some (messageKeyAt ck0 i)) ∧
  (∀ e ∈ st.skipped_message_keys, e.1.1 = R →
    e.1.2 < st.message_number_recv ∧ e.1.2 ∉ delivered) ∧
  (∀ i ∈ delivered, i < st.message_number_recv)

instance RecvInv.decidable (ck0 : Bytes) (R : Nat) (delivered : List Nat) (st : RatchetState) :
    Decidable (RecvInv ck0 R delivered st) := by
  unfold RecvInv
  infer_instance

theorem recvInv_lookup_none (ck0 : Bytes) (R : Nat) (delivered : List Nat) (st : RatchetState)
    (h : RecvInv ck0 R delivered st) (n : Nat)
    (hn : n ∈ delivered ∨ st.message_number_recv ≤ n) :
    lookupSK (R, n) st.skipped_message_keys = none := by
  cases hmem : lookupSK (R, n) st.skipped_message_keys with
  | none => rfl
  | some v =>
    exfalso
    have hmem2 := lookupSK_some_mem (R, n) v st.skipped_message_keys hmem
    have h5 := h.2.2.2.2.1 ((R, n), v) hmem2 rfl
    rcases hn with hn | hn
    · exact h5.2 hn
    · exact absurd h5.1 (Nat.not_lt.mpr hn)

/-- On a matching remote key the new-chain step of `decrypt` does
nothing. -/
theorem decryptChainStep_same (st : RatchetState) (R : Nat)
    (h : st.remote_public_key = some R) :
    DoubleRatchetAlgoImpl.decryptChainStep st R = (.ok (), st) := by
  simp [DoubleRatchetAlgoImpl.decryptChainStep, h]

/-- A skip whose target does not lie ahead of `start` is a no-op. -/
theorem skip_message_keys_noop (st : RatchetState) (pk start untilN : Nat) (ck : Bytes)
    (hck : st.chain_key_recv = some ck) (hle : untilN ≤ start) :
    DoubleRatchetAlgoImpl.skip_message_keys st (some pk) start untilN = (.ok (), st) := by
  have h1 : ¬ (start + 1000 < untilN) := by omega
  simp [DoubleRatchetAlgoImpl.skip_message_keys, hck, h1, hle]

/-- An in-window forward skip runs the caching loop. -/
theorem skip_message_keys_run (st : RatchetState) (pk start untilN : Nat) (ck : Bytes)
    (hck : st.chain_key_recv = some ck) (hgt : start < untilN)
    (hjump : untilN ≤ start + 1000) :
    DoubleRatchetAlgoImpl.skip_message_keys st (some pk) start untilN =
      (.ok (), { st with
        chain_key_recv :=
          some (skipChainLoop pk start (untilN - start) ck st.skipped_message_keys).1
        skipped_message_keys :=
          (skipChainLoop pk start (untilN - start) ck st.skipped_message_keys).2 }) := by
  have h1 : ¬ (start + 1000 < untilN) := by omega
  have h2 : ¬ (untilN ≤ start) := by omega
  simp [DoubleRatchetAlgoImpl.skip_message_keys, hck, h1, h2]

/-- An out-of-window skip fails without touching the state. -/
theorem skip_message_keys_err (st : RatchetState) (pk start untilN : Nat) (ck : Bytes)
    (hck : st.chain_key_recv = some ck) (hgt : start + 1000 < untilN) :
    DoubleRatchetAlgoImpl.skip_message_keys st (some pk) start untilN =
      (.error .tooManySkip, st) := by
  simp [DoubleRatchetAlgoImpl.skip_message_keys, hck, hgt]

/-- One receiver step: under the chain invariant, decrypting the genuine
envelope of an undelivered in-window message number returns its plaintext,
moves the frontier to `max` of the old frontier and the successor of the
number, and re-establishes the invariant with the number consumed. -/
theorem decrypt_step (ck0 : Bytes) (R : Nat) (delivered : List Nat) (st : RatchetState)
    (pt nc : Bytes) (n : Nat)
    (hInv : RecvInv ck0 R delivered st)
    (hnew : n ∉ delivered)
    (hjump : n ≤ st.message_number_recv + 1000)
    (hnc : nc.length = 12) :
    (DoubleRatchetAlgoImpl.decrypt st (envOf ck0 n pt nc) R n).1 = .ok pt ∧
    (DoubleRatchetAlgoImpl.decrypt st (envOf ck0 n pt nc) R n).2.message_number_recv
      = max st.message_number_recv (n + 1) ∧
    RecvInv ck0 R (n :: delivered) (DoubleRatchetAlgoImpl.decrypt st (envOf ck0 n pt nc) R n).2 := by
  obtain ⟨hR, hck, hnd, hcache, hkeys, hdel⟩ := hInv
  have hok : liftCrypto (CryptoUtils.decrypt (messageKeyAt ck0 n) (envOf ck0 n pt nc) [])
      = .ok pt := by
    rw [envOf, cryptoUtils_decrypt_encrypt _ _ _ _ (length_messageKeyAt ck0 n) hnc]
    rfl
  by_cases hlt : n < st.message_number_recv
  · -- the cached-key path
    have hl : lookupSK (R, n) st.skipped_message_keys = some (messageKeyAt ck0 n) :=
      hcache n hlt hnew
    have hdec : DoubleRatchetAlgoImpl.decrypt st (envOf ck0 n pt nc) R n =
        (liftCrypto (CryptoUtils.decrypt (messageKeyAt ck0 n) (envOf ck0 n pt nc) []),
         { st with skipped_message_keys := popSK (R, n) st.skipped_message_keys }) := by
      simp [DoubleRatchetAlgoImpl.decrypt, hl]
    rw [hdec]
    dsimp only
    refine ⟨hok, by omega, ?_⟩
    refine ⟨hR, hck, keysNodup_popSK _ _ hnd, ?_, ?_, ?_⟩
    · dsimp only
      intro i hi hni
      have hine : (R, i) ≠ (R, n) := by
        intro hh
        have hin2 : i = n := congrArg Prod.snd hh
        exact hni (hin2 ▸ List.mem_cons_self n delivered)
      rw [lookupSK_pop_ne _ _ _ hine]
      exact hcache i hi (fun hmem => hni (List.mem_cons_of_mem _ hmem))
    · dsimp only
      intro e he hkey
      obtain ⟨hmem, hne⟩ := mem_popSK (R, n) st.skipped_message_keys e hnd he
      obtain ⟨hlt2, hnd2⟩ := hkeys e hmem hkey
      refine ⟨hlt2, ?_⟩
      intro hmem2
      rcases List.mem_cons.mp hmem2 with h1 | h1
      · exact hne (Prod.ext hkey h1)
      · exact hnd2 h1
    · dsimp only
      intro i hi
      rcases List.mem_cons.mp hi with h1 | h1
      · omega
      · exact hdel i h1
  · -- the chain path
    push_neg at hlt
    have hnone : lookupSK (R, n) st.skipped_message_keys = none :=
      recvInv_lookup_none ck0 R delivered st ⟨hR, hck, hnd, hcache, hkeys, hdel⟩ n (Or.inr hlt)
    have hchainstep := decryptChainStep_same st R hR
    by_cases heq : n = st.message_number_recv
    · have hskip := skip_message_keys_noop st R st.message_number_recv n
        (chainKeyAt ck0 st.message_number_recv) hck (by omega)
      have hdec : DoubleRatchetAlgoImpl.decrypt st (envOf ck0 n pt nc) R n =
          (liftCrypto (CryptoUtils.decrypt (messageKeyAt ck0 n) (envOf ck0 n pt nc) []),
           { st with
             chain_key_recv := some (chainKeyAt ck0 (n + 1))
             message_number_recv := n + 1 }) := by
        simp only [DoubleRatchetAlgoImpl.decrypt, hnone, hchainstep, hskip, hck]
        rw [← heq]
        rfl
      rw [hdec]
      dsimp only
      refine ⟨hok, by omega, ?_⟩
      refine ⟨hR, rfl, hnd, ?_, ?_, ?_⟩
      · dsimp only
        intro i hi hni
        have hilt : i < st.message_number_recv := by
          have hine : i ≠ n := fun hh => hni (hh ▸ List.mem_cons_self n delivered)
          omega
        exact hcache i hilt (fun hmem => hni (List.mem_cons_of_mem _ hmem))
      · dsimp only
        intro e he hkey
        obtain ⟨hlt2, hnd2⟩ := hkeys e he hkey
        refine ⟨by omega, ?_⟩
        intro hmem2
        rcases List.mem_cons.mp hmem2 with h1 | h1
        · omega
        · exact hnd2 h1
      · dsimp only
        intro i hi
        rcases List.mem_cons.mp hi with h1 | h1
        · omega
        · have := hdel i h1
          omega
    · have hgt : st.message_number_recv < n := by omega
      have hskip := skip_message_keys_run st R st.message_number_recv n
        (chainKeyAt ck0 st.message_number_recv) hck hgt (by omega)
      obtain ⟨hloop1, hloop2, hloop3⟩ :=
        skipChainLoop_spec ck0 R (n - st.message_number_recv) st.message_number_recv
          st.skipped_message_keys
      have harith : st.message_number_recv + (n - st.message_number_recv) = n := by omega
      rw [harith] at hloop1 hloop2
      have hdec : DoubleRatchetAlgoImpl.decrypt st (envOf ck0 n pt nc) R n =
          (liftCrypto (CryptoUtils.decrypt (messageKeyAt ck0 n) (envOf ck0 n pt nc) []),
           { st with
             chain_key_recv := some (chainKeyAt ck0 (n + 1))
             message_number_recv := n + 1
             skipped_message_keys :=
               (skipChainLoop R st.message_number_recv (n - st.message_number_recv)
                 (chainKeyAt ck0 st.message_number_recv) st.skipped_message_keys).2 }) := by
        simp only [DoubleRatchetAlgoImpl.decrypt, hnone, hchainstep, hskip, hloop1]
        rfl
      rw [hdec]
      dsimp only
      refine ⟨hok, by omega, ?_⟩
      refine ⟨hR, rfl, hloop3 hnd, ?_, ?_, ?_⟩
      · dsimp only
        intro i hi hni
        have hine : i ≠ n := fun hh => hni (hh ▸ List.mem_cons_self n delivered)
        have hnid : i ∉ delivered := fun hmem => hni (List.mem_cons_of_mem _ hmem)
        rw [hloop2 R i]
        by_cases hilo : i < st.message_number_recv
        · have hcond : ¬ (R = R ∧ st.message_number_recv ≤ i ∧ i < n) := by omega
          rw [if_neg hcond]
          exact hcache i hilo hnid
        · have hcond : R = R ∧ st.message_number_recv ≤ i ∧ i < n := ⟨rfl, by omega, by omega⟩
          rw [if_pos hcond]
      · dsimp only
        intro e he hkey
        obtain ⟨⟨ea, eb⟩, ev⟩ := e
        dsimp only at hkey ⊢
        subst hkey
        have hlook := mem_lookupSK _ ((ea, eb), ev) (hloop3 hnd) he
        dsimp only at hlook
        rw [hloop2 ea eb] at hlook
        by_cases hcond : ea = ea ∧ st.message_number_recv ≤ eb ∧ eb < n
        · refine ⟨by omega, ?_⟩
          intro hmem2
          rcases List.mem_cons.mp hmem2 with h1 | h1
          · omega
          · have := hdel eb h1
            omega
        · rw [if_neg hcond] at hlook
          have hmem3 : ((ea, eb), ev) ∈ st.skipped_message_keys :=
            lookupSK_some_mem _ _ _ hlook
          obtain ⟨hlt2, hnd2⟩ := hkeys ((ea, eb), ev) hmem3 rfl
          have hlt2b : eb < st.message_number_recv := hlt2
          have hnd2b : eb ∉ delivered := hnd2
          refine ⟨by omega, ?_⟩
          intro hmem2
          rcases List.mem_cons.mp hmem2 with h1 | h1
          · omega
          · exact hnd2b h1
      · dsimp only
        intro i hi
        rcases List.mem_cons.mp hi with h1 | h1
        · omega
        · have := hdel i h1
          omega

/-- Fold of `decrypt` over a delivery order: each element is a message
number whose genuine envelope (built from `pt` and `nc`) is presented with
the chain's ratchet public key `R`. -/
def deliverRun (ck0 : Bytes) (R : Nat) (pt nc : Nat → Bytes) :
    RatchetState → List Nat → List (Except DrError Bytes) × RatchetState
  | st, [] => ([], st)
  | st, n :: rest =>
    let r := DoubleRatchetAlgoImpl.decrypt st (envOf ck0 n (pt n) (nc n)) R n
    let rr := deliverRun ck0 R pt nc r.2 rest
    (r.1 :: rr.1, rr.2)

/-- A delivery order is within the skip window when, starting from frontier
`f`, no element jumps more than 1000 positions past the current frontier. -/
def validJumpsB (f : Nat) : List Nat → Bool
  | [] => true
  | n :: rest => decide (n ≤ f + 1000) && validJumpsB (max f (n + 1)) rest

/-- Under the chain invariant, delivering any in-window order of distinct
fresh message numbers decrypts every envelope to its plaintext. -/
theorem deliverRun_spec (ck0 : Bytes) (R : Nat) (pt nc : Nat → Bytes)
    (hnc : ∀ i, (nc i).length = 12) :
    ∀ (order : List Nat) (delivered : List Nat) (st : RatchetState),
      RecvInv ck0 R delivered st →
      (∀ n ∈ order, n ∉ delivered) →
      order.Nodup →
      validJumpsB st.message_number_recv order = true →
      (deliverRun ck0 R pt nc st order).1 = order.map (fun n => Except.ok (pt n)) := by
  intro order
  induction order with
  | nil => intro delivered st _ _ _ _; rfl
  | cons n rest ih =>
    intro delivered st hInv hfresh hnodup hvalid
    simp only [validJumpsB, Bool.and_eq_true, decide_eq_true_eq] at hvalid
    obtain ⟨hjump, hvalid2⟩ := hvalid
    obtain ⟨hres, hmnr, hInv2⟩ := decrypt_step ck0 R delivered st (pt n) (nc n) n hInv
      (hfresh n (List.mem_cons_self n rest)) hjump (hnc n)
    have hfresh2 : ∀ m ∈ rest, m ∉ n :: delivered := by
      intro m hm hmem
      rcases List.mem_cons.mp hmem with h1 | h1
      · exact (List.nodup_cons.mp hnodup).1 (h1 ▸ hm)
      · exact hfresh m (List.mem_cons_of_mem _ hm) h1
    have hvalid3 : validJumpsB
        (DoubleRatchetAlgoImpl.decrypt st (envOf ck0 n (pt n) (nc n)) R n).2.message_number_recv
        rest = true := by
      rw [hmnr]
      exact hvalid2
    have htail := ih (n :: delivered) _ hInv2 hfresh2 (List.nodup_cons.mp hnodup).2 hvalid3
    simp [deliverRun, hres, htail]

/-- C2: for every sequence of messages m0..mk encrypted in order on one
sending chain by one party, the other party's decrypt (given each
ciphertext with its ratchet public key and message number) returns the
original plaintext for every message, for every delivery order of m0..mk
whose forward jumps never exceed MAX_SKIP = 1000; out-of-order delivery
within the chain is served by caching skipped message keys and consuming
them on arrival. -/
theorem out_of_order_delivery (ck0 : Bytes) (R k : Nat) (pt nc : Nat → Bytes)
    (stS stR : RatchetState) (order : List Nat)
    (hnc : ∀ i, (nc i).length = 12)
    (hS1 : stS.chain_key_send = some ck0)
    (hS2 : stS.message_number_send = 0)
    (hS3 : stS.ratchet_public_key = some R)
    (hR1 : RecvInv ck0 R [] stR)
    (hR2 : stR.message_number_recv = 0)
    (hord1 : order.Nodup)
    (hord2 : ∀ n ∈ order, n ≤ k)
    (hord3 : validJumpsB 0 order = true) :
    (senderRun stS (msgListFrom pt nc 0 (k + 1))).1 = expectedFrom ck0 R pt nc 0 (k + 1) ∧
    (deliverRun ck0 R pt nc stR order).1 = order.map (fun n => Except.ok (pt n)) := by
  constructor
  · exact senderRun_msgs ck0 R pt nc (k + 1) 0 stS hS1 hS2 hS3
  · refine deliverRun_spec ck0 R pt nc hnc order [] stR hR1 ?_ hord1 ?_
    · intro n _ hmem
      exact absurd hmem (List.not_mem_nil n)
    · rw [hR2]
      exact hord3

/-- Concrete sending chain key for the C2 witness run. -/
def ck0W : Bytes := List.replicate 32 2

/-- Concrete plaintexts for the C2 witness run. -/
def ptW : Nat → Bytes := fun i => [100 + i]

/-- Concrete nonce samples for the C2 witness run. -/
def ncW : Nat → Bytes := fun _ => List.replicate 12 6

/-- Concrete sender state for the C2 witness run. -/
def stSW : RatchetState :=
  { initialRatchetState with chain_key_send := some ck0W, ratchet_public_key := some 9 }

/-- Concrete receiver state for the C2 witness run. -/
def stRW : RatchetState :=
  { initialRatchetState with chain_key_recv := some ck0W, remote_public_key := some 9 }

/-- Closed instance of `out_of_order_delivery`: three messages sent in
order and delivered in the order m2, m0, m1, as in the spec scenario. -/
theorem out_of_order_delivery_witness :
    (senderRun stSW (msgListFrom ptW ncW 0 3)).1 = expectedFrom ck0W 9 ptW ncW 0 3 ∧
    (deliverRun ck0W 9 ptW ncW stRW [2, 0, 1]).1
      = [2, 0, 1].map (fun n => Except.ok (ptW n)) :=
  out_of_order_delivery ck0W 9 2 ptW ncW stSW stRW [2, 0, 1]
    (fun _ => rfl) rfl rfl rfl (by decide) rfl (by decide) (by decide) (by decide)

/-- C5: for every ratchet state with a non-null receiving chain key and
remote public key, a skip operation from position `start` to `untilN`
raises an error (and caches no keys) exactly when untilN − start > 1000;
after such a refused skip the session state is unchanged, and a subsequent
decrypt of an in-window message on the same chain succeeds. -/
theorem skip_window_bound :
    (∀ (st : RatchetState) (ck : Bytes) (pk start untilN : Nat),
      st.chain_key_recv = some ck →
      (((DoubleRatchetAlgoImpl.skip_message_keys st (some pk) start untilN).1
          = Except.error DrError.tooManySkip) ↔ 1000 < untilN - start)) ∧
    (∀ (st : RatchetState) (ck : Bytes) (pk start untilN : Nat),
      st.chain_key_recv = some ck → 1000 < untilN - start →
      (DoubleRatchetAlgoImpl.skip_message_keys st (some pk) start untilN).2 = st) ∧
    (∀ (ck0 : Bytes) (R : Nat) (delivered : List Nat) (st : RatchetState)
        (ptx ncx : Bytes) (n : Nat),
      RecvInv ck0 R delivered st → n ∉ delivered →
      n ≤ st.message_number_recv + 1000 → ncx.length = 12 →
      (DoubleRatchetAlgoImpl.decrypt st (envOf ck0 n ptx ncx) R n).1 = Except.ok ptx) := by
  refine ⟨?_, ?_, ?_⟩
  · intro st ck pk start untilN hck
    constructor
    · intro herr
      by_contra hle
      have h1 : ¬ (start + 1000 < untilN) := by omega
      by_cases h2 : untilN ≤ start
      · rw [skip_message_keys_noop st pk start untilN ck hck h2] at herr
        exact absurd herr (by simp)
      · rw [skip_message_keys_run st pk start untilN ck hck (by omega) (by omega)] at herr
        exact absurd herr (by simp)
    · intro hgt
      rw [skip_message_keys_err st pk start untilN ck hck (by omega)]
  · intro st ck pk start untilN hck hgt
    rw [skip_message_keys_err st pk start untilN ck hck (by omega)]
  · intro ck0 R delivered st ptx ncx n hInv hnew hjump hlen
    exact (decrypt_step ck0 R delivered st ptx ncx n hInv hnew hjump hlen).1

/-- Concrete receiving chain key for the C5 witness. -/
def ckW5 : Bytes := List.replicate 32 4

/-- Concrete receiver state for the C5 witness. -/
def stW5 : RatchetState :=
  { initialRatchetState with chain_key_recv := some ckW5, remote_public_key := some 9 }

/-- Closed instance of `skip_window_bound`: a skip of 1001 positions is
refused and leaves the state unchanged; message 3 then decrypts. -/
theorem skip_window_bound_witness :
    stW5.chain_key_recv = some ckW5 ∧
    (((DoubleRatchetAlgoImpl.skip_message_keys stW5 (some 9) 0 1001).1
        = Except.error DrError.tooManySkip) ↔ 1000 < 1001 - 0) ∧
    (DoubleRatchetAlgoImpl.skip_message_keys stW5 (some 9) 0 1001).2 = stW5 ∧
    (DoubleRatchetAlgoImpl.decrypt stW5 (envOf ckW5 3 [5] (List.replicate 12 1)) 9 3).1
      = Except.ok [5] :=
  ⟨rfl, skip_window_bound.1 stW5 ckW5 9 0 1001 rfl,
   skip_window_bound.2.1 stW5 ckW5 9 0 1001 rfl (by decide),
   skip_window_bound.2.2 ckW5 9 [] stW5 [5] (List.replicate 12 1) 3 (by decide) (by decide)
     (by decide) (by decide)⟩

/-- C9: a decrypt that hits the skipped-key cache removes exactly that one
entry and decrypts with the cached key, leaving every other state field and
every other cache entry unchanged. -/
theorem skipped_key_consumed (st : RatchetState) (R n : Nat) (mk0 ct : Bytes)
    (hnd : keysNodup st.skipped_message_keys)
    (hl : lookupSK (R, n) st.skipped_message_keys = some mk0) :
    (DoubleRatchetAlgoImpl.decrypt st ct R n).1 = liftCrypto (CryptoUtils.decrypt mk0 ct []) ∧
    (DoubleRatchetAlgoImpl.decrypt st ct R n).2.root_key = st.root_key ∧
    (DoubleRatchetAlgoImpl.decrypt st ct R n).2.chain_key_send = st.chain_key_send ∧
    (DoubleRatchetAlgoImpl.decrypt st ct R n).2.chain_key_recv = st.chain_key_recv ∧
    (DoubleRatchetAlgoImpl.decrypt st ct R n).2.message_number_send = st.message_number_send ∧
    (DoubleRatchetAlgoImpl.decrypt st ct R n).2.message_number_recv = st.message_number_recv ∧
    (DoubleRatchetAlgoImpl.decrypt st ct R n).2.previous_chain_length
      = st.previous_chain_length ∧
    (DoubleRatchetAlgoImpl.decrypt st ct R n).2.ratchet_private_key
      = st.ratchet_private_key ∧
    (DoubleRatchetAlgoImpl.decrypt st ct R n).2.ratchet_public_key = st.ratchet_public_key ∧
    (DoubleRatchetAlgoImpl.decrypt st ct R n).2.remote_public_key = st.remote_public_key ∧
    (DoubleRatchetAlgoImpl.decrypt st ct R n).2.skipped_message_keys
      = popSK (R, n) st.skipped_message_keys ∧
    lookupSK (R, n) (DoubleRatchetAlgoImpl.decrypt st ct R n).2.skipped_message_keys = none ∧
    (∀ q : Nat × Nat, q ≠ (R, n) →
      lookupSK q (DoubleRatchetAlgoImpl.decrypt st ct R n).2.skipped_message_keys
        = lookupSK q st.skipped_message_keys) := by
  have hdec : DoubleRatchetAlgoImpl.decrypt st ct R n =
      (liftCrypto (CryptoUtils.decrypt mk0 ct []),
       { st with skipped_message_keys := popSK (R, n) st.skipped_message_keys }) := by
    simp [DoubleRatchetAlgoImpl.decrypt, hl]
  rw [hdec]
  dsimp only
  exact ⟨rfl, rfl, rfl, rfl, rfl, rfl, rfl, rfl, rfl, rfl, rfl,
    lookupSK_pop_self (R, n) _ hnd, fun q hq => lookupSK_pop_ne q (R, n) _ hq⟩

/-- Concrete cached message key for the C9 witness. -/
def mkW9 : Bytes := CryptoUtils.perform_key_derivation_using_hkdf [3] [4] 32

/-- Concrete ratchet state for the C9 witness: one cached skipped key. -/
def stW9 : RatchetState :=
  { initialRatchetState with skipped_message_keys := [((7, 2), mkW9)] }

/-- Closed instance of `skipped_key_consumed` at a concrete state. -/
theorem skipped_key_consumed_witness :
    keysNodup stW9.skipped_message_keys ∧
    lookupSK (7, 2) stW9.skipped_message_keys = some mkW9 ∧
    (DoubleRatchetAlgoImpl.decrypt stW9 [1, 2, 3] 7 2).1
      = liftCrypto (CryptoUtils.decrypt mkW9 [1, 2, 3] []) ∧
    (DoubleRatchetAlgoImpl.decrypt stW9 [1, 2, 3] 7 2).2.skipped_message_keys
      = popSK (7, 2) stW9.skipped_message_keys :=
  ⟨by decide, by decide,
   (skipped_key_consumed stW9 7 2 mkW9 [1, 2, 3] (by decide) (by decide)).1,
   (skipped_key_consumed stW9 7 2 mkW9 [1, 2, 3] (by decide)
     (by decide)).2.2.2.2.2.2.2.2.2.2.1⟩

/-- Evaluation of the sending DH ratchet step on a state with a root
key. -/
theorem dh_ratchet_send_eval (st : RatchetState) (remote priv : Nat) (rk : Bytes)
    (hroot : st.root_key = some rk) :
    DoubleRatchetAlgoImpl.dh_ratchet_send st remote priv =
      (.ok (), { st with
        previous_chain_length := st.message_number_send
        message_number_send := 0
        ratchet_private_key := some priv
        ratchet_public_key := some (pubKeyOf priv)
        root_key := some ((CryptoUtils.perform_key_derivation_using_hkdf
          (rk ++ CryptoUtils.preform_diff_hellman_agreement priv remote)
          infoRatchetStep 64).take 32)
        chain_key_send := some ((CryptoUtils.perform_key_derivation_using_hkdf
          (rk ++ CryptoUtils.preform_diff_hellman_agreement priv remote)
          infoRatchetStep 64).drop 32) }) := by
  simp [DoubleRatchetAlgoImpl.dh_ratchet_send, hroot]

/-- C10: an encrypt call on a state with a sending chain key mutates only
`chain_key_send` and `message_number_send` (first part, stated as one
record equation); a DH ratchet step happens inside encrypt only when the
sending chain key is null at entry (second part: in that case a fresh
ratchet key pair is installed and the previous chain length saved). -/
theorem encrypt_frame :
    (∀ (st : RatchetState) (ptx ncx : Bytes) (priv : Nat) (ck : Bytes),
      st.chain_key_send = some ck →
      (DoubleRatchetAlgoImpl.encrypt st ptx ncx priv).2 =
        { st with
          chain_key_send := some (DoubleRatchetAlgoImpl.symmetric_ratchet ck).2
          message_number_send := st.message_number_send + 1 }) ∧
    (∀ (st : RatchetState) (ptx ncx : Bytes) (priv r : Nat) (rk : Bytes),
      st.chain_key_send = none → st.remote_public_key = some r → st.root_key = some rk →
      (DoubleRatchetAlgoImpl.encrypt st ptx ncx priv).2.ratchet_public_key
          = some (pubKeyOf priv) ∧
      (DoubleRatchetAlgoImpl.encrypt st ptx ncx priv).2.previous_chain_length
          = st.message_number_send) := by
  constructor
  · intro st ptx ncx priv ck h
    have he : DoubleRatchetAlgoImpl.encrypt st ptx ncx priv
        = DoubleRatchetAlgoImpl.encryptBody st ptx ncx := by
      simp [DoubleRatchetAlgoImpl.encrypt, h]
    rw [he, encryptBody_state st ptx ncx ck h]
  · intro st ptx ncx priv r rk h hr hroot
    have hstep := dh_ratchet_send_eval st r priv rk hroot
    constructor <;>
      simp [DoubleRatchetAlgoImpl.encrypt, h, hr, hstep, DoubleRatchetAlgoImpl.encryptBody,
            DoubleRatchetAlgoImpl.symmetric_ratchet, CryptoUtils.encrypt, length_hkdf]

/-- Concrete chain key for the C10 witness. -/
def ckW10 : Bytes := List.replicate 32 8

/-- Concrete state with a sending chain for the C10 witness. -/
def stW10 : RatchetState := { initialRatchetState with chain_key_send := some ckW10 }

/-- Concrete state without a sending chain for the C10 witness. -/
def stW10b : RatchetState :=
  { initialRatchetState with remote_public_key := some 3
                             root_key := some (List.replicate 32 9) }

/-- Closed instance of `encrypt_frame` at concrete states. -/
theorem encrypt_frame_witness :
    stW10.chain_key_send = some ckW10 ∧
    (DoubleRatchetAlgoImpl.encrypt stW10 [1] (List.replicate 12 0) 5).2 =
      { stW10 with
        chain_key_send := some (DoubleRatchetAlgoImpl.symmetric_ratchet ckW10).2
        message_number_send := stW10.message_number_send + 1 } ∧
    (DoubleRatchetAlgoImpl.encrypt stW10b [1] (List.replicate 12 0) 5).2.ratchet_public_key
      = some (pubKeyOf 5) ∧
    (DoubleRatchetAlgoImpl.encrypt stW10b [1] (List.replicate 12 0) 5).2.previous_chain_length
      = stW10b.message_number_send :=
  ⟨rfl,
   encrypt_frame.1 stW10 [1] (List.replicate 12 0) 5 ckW10 rfl,
   (encrypt_frame.2 stW10b [1] (List.replicate 12 0) 5 3 (List.replicate 32 9)
     rfl rfl rfl).1,
   (encrypt_frame.2 stW10b [1] (List.replicate 12 0) 5 3 (List.replicate 32 9)
     rfl rfl rfl).2⟩

/-- State evolution of `decrypt` on the chain path (no cached key, same
remote key, receiving chain present): either the frontier moves to the
successor of the message number, or the call failed on the skip bound and
the state is unchanged. -/
theorem decrypt_mnr_chain (st : RatchetState) (ct : Bytes) (R n : Nat) (ck : Bytes)
    (hnone : lookupSK (R, n) st.skipped_message_keys = none)
    (hR : st.remote_public_key = some R)
    (hck : st.chain_key_recv = some ck) :
    (DoubleRatchetAlgoImpl.decrypt st ct R n).2.message_number_recv = n + 1 ∨
    (DoubleRatchetAlgoImpl.decrypt st ct R n).2 = st := by
  have hchainstep := decryptChainStep_same st R hR
  by_cases h1 : st.message_number_recv + 1000 < n
  · right
    have hskip := skip_message_keys_err st R st.message_number_recv n ck hck h1
    simp [DoubleRatchetAlgoImpl.decrypt, hnone, hchainstep, hskip]
  · by_cases h2 : n ≤ st.message_number_recv
    · left
      have hskip := skip_message_keys_noop st R st.message_number_recv n ck hck h2
      simp [DoubleRatchetAlgoImpl.decrypt, hnone, hchainstep, hskip, hck]
    · left
      have hskip := skip_message_keys_run st R st.message_number_recv n ck hck
        (by omega) (by omega)
      simp [DoubleRatchetAlgoImpl.decrypt, hnone, hchainstep, hskip]

/-- C6: `message_number_send` grows by exactly one on every encrypt call on
an existing sending chain (hence is strictly increasing between DH steps),
a sending DH ratchet step resets it to 0 and saves the old value in
`previous_chain_length`, a receiving DH ratchet step resets
`message_number_recv` to 0, and within a receiving chain satisfying the
chain invariant a decrypt of a not-yet-delivered number never decreases
`message_number_recv`. -/
theorem counters_monotonic :
    (∀ (st : RatchetState) (ptx ncx : Bytes) (priv : Nat) (ck : Bytes),
      st.chain_key_send = some ck →
      (DoubleRatchetAlgoImpl.encrypt st ptx ncx priv).2.message_number_send
        = st.message_number_send + 1) ∧
    (∀ (st : RatchetState) (remote priv : Nat),
      (DoubleRatchetAlgoImpl.dh_ratchet_send st remote priv).2.message_number_send = 0 ∧
      (DoubleRatchetAlgoImpl.dh_ratchet_send st remote priv).2.previous_chain_length
        = st.message_number_send) ∧
    (∀ (st : RatchetState) (remote : Nat),
      (DoubleRatchetAlgoImpl.dh_ratchet_receive st remote).2.message_number_recv = 0) ∧
    (∀ (ck0 : Bytes) (R : Nat) (delivered : List Nat) (st : RatchetState)
        (ct : Bytes) (n : Nat),
      RecvInv ck0 R delivered st → n ∉ delivered →
      st.message_number_recv ≤ (DoubleRatchetAlgoImpl.decrypt st ct R n).2.message_number_recv) := by
  refine ⟨?_, ?_, ?_, ?_⟩
  · intro st ptx ncx priv ck h
    have he : DoubleRatchetAlgoImpl.encrypt st ptx ncx priv
        = DoubleRatchetAlgoImpl.encryptBody st ptx ncx := by
      simp [DoubleRatchetAlgoImpl.encrypt, h]
    rw [he, encryptBody_state st ptx ncx ck h]
  · intro st remote priv
    cases hroot : st.root_key <;>
      simp [DoubleRatchetAlgoImpl.dh_ratchet_send, hroot]
  · intro st remote
    cases hpriv : st.ratchet_private_key <;> cases hroot : st.root_key <;>
      simp [DoubleRatchetAlgoImpl.dh_ratchet_receive, hpriv, hroot]
  · intro ck0 R delivered st ct n hInv hnew
    obtain ⟨hR, hck, hnd, hcache, hkeys, hdel⟩ := hInv
    cases hv : lookupSK (R, n) st.skipped_message_keys with
    | some v =>
      have hdec : DoubleRatchetAlgoImpl.decrypt st ct R n =
          (liftCrypto (CryptoUtils.decrypt v ct []),
           { st with skipped_message_keys := popSK (R, n) st.skipped_message_keys }) := by
        simp [DoubleRatchetAlgoImpl.decrypt, hv]
      rw [hdec]
    | none =>
      have hmnrle : st.message_number_recv ≤ n := by
        by_contra hlt
        push_neg at hlt
        have hc := hcache n hlt hnew
        rw [hv] at hc
        simp at hc
      obtain hd | hd := decrypt_mnr_chain st ct R n (chainKeyAt ck0 st.message_number_recv)
        hv hR hck
      · rw [hd]
        omega
      · rw [hd]

/-- Closed instance of `counters_monotonic` at concrete states. -/
theorem counters_monotonic_witness :
    stW10.chain_key_send = some ckW10 ∧
    (DoubleRatchetAlgoImpl.encrypt stW10 [1] (List.replicate 12 0) 5).2.message_number_send
      = stW10.message_number_send + 1 ∧
    (DoubleRatchetAlgoImpl.dh_ratchet_send stW10 3 5).2.message_number_send = 0 ∧
    (DoubleRatchetAlgoImpl.dh_ratchet_receive stW10 3).2.message_number_recv = 0 ∧
    RecvInv ckW5 9 [] stW5 ∧
    stW5.message_number_recv ≤ (DoubleRatchetAlgoImpl.decrypt stW5 [] 9 0).2.message_number_recv :=
  ⟨rfl,
   counters_monotonic.1 stW10 [1] (List.replicate 12 0) 5 ckW10 rfl,
   (counters_monotonic.2.1 stW10 3 5).1,
   counters_monotonic.2.2.1 stW10 3,
   by decide,
   counters_monotonic.2.2.2 ckW5 9 [] stW5 [] 0 (by decide) (by decide)⟩

instance {ε α : Type} [DecidableEq ε] [DecidableEq α] : DecidableEq (Except ε α) := fun x y =>
  match x, y with
  | .ok a, .ok b =>
    if h : a = b then .isTrue (congrArg Except.ok h)
    else .isFalse (fun hh => h (Except.ok.inj hh))
  | .error a, .error b =>
    if h : a = b then .isTrue (congrArg Except.error h)
    else .isFalse (fun hh => h (Except.error.inj hh))
  | .ok _, .error _ => .isFalse (fun hh => Except.noConfusion hh)
  | .error _, .ok _ => .isFalse (fun hh => Except.noConfusion hh)

/-- Concrete cached message key for the C1 failing input (32 bytes). -/
def mkC1 : Bytes := CryptoUtils.perform_key_derivation_using_hkdf [9] [9] 32

/-- Pre-call ratchet state for the C1 failing input: one cached skipped key
for (ratchet key 5, message number 0). -/
def stC1 : RatchetState :=
  { initialRatchetState with skipped_message_keys := [((5, 0), mkC1)] }

/-- A genuine envelope under the cached key with its final tag byte flipped
(a tampered ciphertext). -/
def ctC1 : Bytes :=
  let good := List.replicate 12 3 ++ AESGCM.encrypt mkC1 (List.replicate 12 3) [104, 105] []
  good.set 29 ((good.getD 29 0) ^^^ 1)

/-- Chain key for the chain-path variant of the C1 failing input. -/
def ckC1 : Bytes := CryptoUtils.perform_key_derivation_using_hkdf [1] [2] 32

/-- Pre-call state with a receiving chain for the chain-path variant. -/
def stC1b : RatchetState :=
  { initialRatchetState with chain_key_recv := some ckC1, remote_public_key := some 5 }

/-- Tampered envelope of message 0 of the chain from `ckC1`. -/
def ctC1b : Bytes :=
  let good := envOf ckC1 0 [104, 105] (List.replicate 12 3)
  good.set 29 ((good.getD 29 0) ^^^ 1)

/-- C1 (failing-input evaluation): decrypt of a tampered ciphertext raises
a tag-verification failure, yet the post-call ratchet state differs from
the pre-call state: the cached skipped key is consumed on the cache path,
and the receive counter and chain key advance on the chain path before the
AEAD failure surfaces. -/
theorem decrypt_failure_mutates_state :
    (DoubleRatchetAlgoImpl.decrypt stC1 ctC1 5 0).1
      = Except.error (DrError.cryptoFailure CryptoErr.tagMismatch) ∧
    (DoubleRatchetAlgoImpl.decrypt stC1 ctC1 5 0).2 ≠ stC1 ∧
    (DoubleRatchetAlgoImpl.decrypt stC1 ctC1 5 0).2.skipped_message_keys = [] ∧
    (DoubleRatchetAlgoImpl.decrypt stC1b ctC1b 5 0).1
      = Except.error (DrError.cryptoFailure CryptoErr.tagMismatch) ∧
    (DoubleRatchetAlgoImpl.decrypt stC1b ctC1b 5 0).2 ≠ stC1b ∧
    (DoubleRatchetAlgoImpl.decrypt stC1b ctC1b 5 0).2.message_number_recv = 1 ∧
    stC1b.message_number_recv = 0 := by
  set_option maxRecDepth 4096 in decide

/-- Model of the per-user record (users.py lines 12-25) restricted to the
key material and session map the decrypt path reads; the signed-prekey
fields are the private and public halves stored in the prekey bundle. -/
structure User where
  identity_priv : Nat
  signed_prekey_priv : Nat
  signed_prekey_pub : Nat
  sessions : List (Nat × RatchetState)
deriving DecidableEq

/-- The in-memory `users` dict of `MessageHandler`, keyed by user id. -/
abbrev UserMap := List (Nat × User)

/-- Dict lookup on the user map. -/
def lookupUser (uid : Nat) : UserMap → Option User
  | [] => none
  | (k, u) :: rest => if k = uid then some u else lookupUser uid rest

/-- Dict assignment on the user map. -/
def updateUser (uid : Nat) (u : User) : UserMap → UserMap
  | [] => [(uid, u)]
  | (k, u') :: rest => if k = uid then (uid, u) :: rest else (k, u') :: updateUser uid u rest

/-- Dict lookup on a sessions map. -/
def lookupSession (sid : Nat) : List (Nat × RatchetState) → Option RatchetState
  | [] => none
  | (k, r) :: rest => if k = sid then some r else lookupSession sid rest

/-- Dict assignment on a sessions map. -/
def insertSession (sid : Nat) (r : RatchetState) :
    List (Nat × RatchetState) → List (Nat × RatchetState)
  | [] => [(sid, r)]
  | (k, r') :: rest => if k = sid then (sid, r) :: rest else (k, r') :: insertSession sid r rest

/-- Read-only snapshot of the external KV reads `decrypt_message` performs:
the stored X3DH ephemeral public key per (sender, receiver) pair and the
published identity key of each user's prekey bundle. -/
structure KVStore where
  x3dh_ephemeral : Nat → Nat → Option Nat
  bundle_identity_key : Nat → Option Nat

/-- Failure modes of `MessageHandler.decrypt_message` (all raised as
ValueError in the source). -/
inductive HandlerError
  | recipientNotFound
  | noSession
  | missingEphemeral
  | missingBundle
  | ratchetFailure (e : DrError)
deriving DecidableEq

/-- Model of `MessageHandler._establish_receiver_session`
(message_handler.py lines 275-320): fetch the stored X3DH ephemeral key
and the sender's published identity key, run the responder X3DH with no
one-time prekey, and install a ratchet initialized as Bob under the
sender's id. -/
def MessageHandler.establish_receiver_session (kv : KVStore) (users : UserMap)
    (receiver_id sender_id : Nat) (alice_ratchet_public_key : Nat) :
    Except HandlerError UserMap :=
  match lookupUser receiver_id users, lookupUser sender_id users with
  | some receiver, some _ =>
    match kv.x3dh_ephemeral sender_id receiver_id with
    | none => .error .missingEphemeral
    | some alice_x3dh_ephemeral_key =>
      match kv.bundle_identity_key sender_id with
      | none => .error .missingBundle
      | some alice_identity_key =>
        let shared_secret := X3DH.calculate_agreement_bob receiver.identity_priv
          receiver.signed_prekey_priv none alice_identity_key alice_x3dh_ephemeral_key
        match DoubleRatchetAlgoImpl.init_bob initialRatchetState shared_secret
            (receiver.signed_prekey_priv, receiver.signed_prekey_pub)
            (some alice_ratchet_public_key) with
        | (.error e, _) => .error (.ratchetFailure e)
        | (.ok _, ratchet) =>
          .ok (updateUser receiver_id
            { receiver with sessions := insertSession sender_id ratchet receiver.sessions }
            users)
  | _, _ => .error .recipientNotFound

/-- Model of `MessageHandler.decrypt_message` (message_handler.py lines
236-273): look up the recipient, establish a receiver session on a first
message when none exists, fail without creating anything otherwise, then
run the ratchet decrypt (whose state mutations are written back even on
failure, as the shared ratchet object is mutated in place in the source)
and hand the plaintext to the JSON payload parser `parse`. -/
def MessageHandler.decrypt_message (kv : KVStore) (parse : Bytes → Except HandlerError Bytes)
    (users : UserMap) (user_id sender_id : Nat) (encrypted_content : Bytes)
    (ephemeral_public_key : Nat) (message_number : Nat) (is_first_message : Bool) :
    Except HandlerError Bytes × UserMap :=
  match lookupUser user_id users with
  | none => (.error .recipientNotFound, users)
  | some recipient =>
    let established : Except HandlerError UserMap :=
      match lookupSession sender_id recipient.sessions with
      | some _ => .ok users
      | none =>
        if is_first_message then
          MessageHandler.establish_receiver_session kv users user_id sender_id
            ephemeral_public_key
        else .error .noSession
    match established with
    | .error e => (.error e, users)
    | .ok users1 =>
      match lookupUser user_id users1 with
      | none => (.error .recipientNotFound, users1)
      | some recip1 =>
        match lookupSession sender_id recip1.sessions with
        | none => (.error .noSession, users1)
        | some ratchet =>
          let r := DoubleRatchetAlgoImpl.decrypt ratchet encrypted_content
            ephemeral_public_key message_number
          let users2 := updateUser user_id
            { recip1 with sessions := insertSession sender_id r.2 recip1.sessions } users1
          match r.1 with
          | .error e => (.error (.ratchetFailure e), users2)
          | .ok data => (parse data, users2)

/-- C8: a decrypt request from a sender with no session entry and
`is_first_message = false` fails with a no-session error and creates no
session: the user map is returned unchanged. -/
theorem no_session_not_first (kv : KVStore) (parse : Bytes → Except HandlerError Bytes)
    (users : UserMap) (user_id sender_id : Nat) (ct : Bytes) (eph n : Nat)
    (recipient : User)
    (hu : lookupUser user_id users = some recipient)
    (hs : lookupSession sender_id recipient.sessions = none) :
    MessageHandler.decrypt_message kv parse users user_id sender_id ct eph n false
      = (.error .noSession, users) := by
  simp [MessageHandler.decrypt_message, hu, hs]

/-- Concrete user record for the C8 witness. -/
def userW8 : User :=
  { identity_priv := 1
    signed_prekey_priv := 2
    signed_prekey_pub := pubKeyOf 2
    sessions := [] }

/-- Concrete user map for the C8 witness. -/
def usersW8 : UserMap := [(0, userW8)]

/-- Concrete empty KV snapshot for the C8 witness. -/
def kvW8 : KVStore :=
  { x3dh_ephemeral := fun _ _ => none
    bundle_identity_key := fun _ => none }

/-- Closed instance of `no_session_not_first` at a concrete user map. -/
theorem no_session_not_first_witness :
    lookupUser 0 usersW8 = some userW8 ∧
    lookupSession 1 userW8.sessions = none ∧
    MessageHandler.decrypt_message kvW8 (fun b => .ok b) usersW8 0 1 [1] 7 0 false
      = (.error .noSession, usersW8) :=
  ⟨by decide, rfl,
   no_session_not_first kvW8 (fun b => .ok b) usersW8 0 1 [1] 7 0 userW8 (by decide) rfl⟩

end E2E
